import Mathlib

/-!
Shallow embedding of the Ecosia batch scraper (`src/main.py`) and proofs
about its specified behaviour.

Strings are modelled as `List Char`.  External collaborators enter as
explicit parameters of the embedded functions: the HTTP transport is a
function from attempt number to an attempt outcome, BeautifulSoup's DOM
is a function from raw HTML to a list of `div` containers, `urllib`'s
`quote` and `urlparse(...).netloc` are abstract string functions, the
`fake_useragent` randomizer is a stream of samples, and the JSON sink is
a function that may fail.  Everything the repository itself computes is
defined concretely below.
-/

/-- `RETRIES = 3` — src/main.py line 16. -/
def RETRIES : Nat := 3

/-- `PAGES = 5` — src/main.py line 14. -/
def PAGES : Nat := 5

/-- Capacity of the page-fetch semaphore `sem = asyncio.Semaphore(10)` — src/main.py line 19. -/
def PAGE_LIMIT : Nat := 10

/-- Capacity of the query semaphore `query_sem = asyncio.Semaphore(3)` — src/main.py line 21. -/
def QUERY_LIMIT : Nat := 3

/-- Outcome of one network attempt (`session.get` in `fetch_page`): either a
response with an HTTP status and a body, or a raised transport exception. -/
inductive AttemptOutcome where
  | response (status : Nat) (body : List Char)
  | exn (msg : List Char)
deriving DecidableEq

/-- What one attempt contributes to the loop (src/main.py lines 42-50):
the body when the response arrived with `response.status == 200`; nothing
on any other status (lines 47-48) or on a caught exception (lines 49-50). -/
def attemptValue : AttemptOutcome → Option (List Char)
  | .response status body => if status == 200 then some body else none
  | .exn _ => none

/-- An attempt succeeds exactly when `response.status == 200` — src/main.py line 43. -/
def isSuccess (a : AttemptOutcome) : Bool := (attemptValue a).isSome

/-- Observable behaviour of one `fetch_page` call: the returned value
(`some` body or `None`), how many attempts were issued, and the
`User-Agent` header each issued request carried, in attempt order. -/
structure FetchTrace where
  result : Option (List Char)
  attemptsUsed : Nat
  headersUsed : List (List Char)
deriving DecidableEq

/-- The retry loop of `fetch_page` (src/main.py lines 37-56): attempt `i`
consults the transport; on status 200 the body is returned at once,
otherwise (non-200 status or caught exception) the loop moves on to the
next attempt until the fuel (`RETRIES`) runs out, and then yields `none`.
Every issued request carries the same `headers` value. -/
def fetchLoop (attempts : Nat → AttemptOutcome) (headers : List Char) :
    Nat → Nat → FetchTrace
  | _, 0 => ⟨none, 0, []⟩
  | i, fuel + 1 =>
    match attemptValue (attempts i) with
    | some body => ⟨some body, 1, [headers]⟩
    | none =>
      let t := fetchLoop attempts headers (i + 1) fuel
      ⟨t.result, t.attemptsUsed + 1, headers :: t.headersUsed⟩

/-- `fetch_page` (src/main.py lines 33-56).  The header dict
`{'User-Agent': self.ua.random}` is built once, before the loop (line 35):
only the first sample `ua 0` of the randomizer stream is ever drawn. -/
def fetch_page (ua : Nat → List Char) (attempts : Nat → AttemptOutcome) : FetchTrace :=
  fetchLoop attempts (ua 0) 0 RETRIES

example :
    fetch_page (fun _ => []) (fun i => if i = 2 then .response 200 ['b'] else .exn ['e']) =
      ⟨some ['b'], 3, [[], [], []]⟩ := by decide

example :
    fetch_page (fun _ => []) (fun _ => .response 503 []) = ⟨none, 3, [[], [], []]⟩ := by
  decide

/-- Model of Python `str.lower` per character (ASCII case mapping; Unicode
lowercasing likewise never produces an uppercase ASCII letter, which is the
only property used below). -/
def pyToLower (c : Char) : Char :=
  if 65 ≤ c.toNat ∧ c.toNat ≤ 90 then Char.ofNat (c.toNat + 32) else c

/-- Model of Python `str.lower` on a whole string. -/
def pyLower (s : List Char) : List Char := s.map pyToLower

/-- Model of Python `str.strip()`: drop whitespace from both ends. -/
def pyStrip (s : List Char) : List Char :=
  ((s.dropWhile Char.isWhitespace).reverse.dropWhile Char.isWhitespace).reverse

/-- An `<a href=...>` tag as BeautifulSoup presents it: its `href`
attribute and its text. -/
structure LinkTag where
  href : List Char
  text : List Char
deriving DecidableEq

/-- A descendant `<div>` considered as a description candidate: its list
of CSS class tokens and its text. -/
structure DescDiv where
  classNames : List (List Char)
  text : List Char
deriving DecidableEq

/-- One `div` container of the parsed page, as BeautifulSoup presents it
to `parse_page`: the value of its `class` attribute, its descendant text
nodes in document order, its descendant `<a href=...>` tags in document
order, and its descendant description-candidate `div`s. -/
structure DomDiv where
  className : List Char
  texts : List (List Char)
  linkTags : List LinkTag
  descDivs : List DescDiv
deriving DecidableEq

/-- One extracted search result (the dict built at src/main.py lines 92-98). -/
structure ResultRecord where
  title : List Char
  link : List Char
  description : List Char
  favicon_path : List Char
  keyword : List Char
deriving DecidableEq

/-- `{"page": page, "results": [...]}` — the per-page value built by `parse_page`. -/
structure PageResult where
  page : Nat
  results : List ResultRecord
deriving DecidableEq

/-- Python's substring test `needle in hay` (also CSS `[attr*=needle]`). -/
def containsSub (needle hay : List Char) : Bool := decide (needle <:+: hay)

/-- The CSS selector `div:not([class*="ad"]):not([class*="cookie"])`
(src/main.py line 71): keep a `div` whose `class` attribute contains
neither `"ad"` nor `"cookie"` as a substring. -/
def selectPred (d : DomDiv) : Bool :=
  !(containsSub "ad".toList d.className) && !(containsSub "cookie".toList d.className)

/-- The sponsorship marker literal of src/main.py line 73. -/
def sponsoredMarker : List Char := "provided by Google".toList

/-- The text-node predicate `lambda t: t and 'provided by Google' in t.lower()`
(src/main.py line 73), verbatim: nonempty text whose *lowercased* form
contains the mixed-case marker. -/
def isSponsoredText (t : List Char) : Bool :=
  !t.isEmpty && containsSub sponsoredMarker (pyLower t)

/-- The description-div class predicate
`lambda x: x and ('description' in x.lower() or 'snippet' in x.lower() or 'result' in x.lower())`
(src/main.py line 85), applied to one class token. -/
def descClassPred (x : List Char) : Bool :=
  !x.isEmpty &&
    (containsSub "description".toList (pyLower x) ||
     containsSub "snippet".toList (pyLower x) ||
     containsSub "result".toList (pyLower x))

/-- Body of the `for result in soup.select(...)` loop (src/main.py
lines 71-99) for one container: skip it when some descendant text node
satisfies the sponsored predicate; find the first `<a href=...>` and skip
unless its `href` starts with `"http"`; otherwise build the record, with
the title defaulting to `"No title"`, the description taken from the
first matching description div (else empty), and the favicon path derived
from `urlparse(link).netloc`. -/
def parseDiv (netloc : List Char → List Char) (keyword : List Char)
    (d : DomDiv) : Option ResultRecord :=
  if d.texts.any isSponsoredText then none
  else
    match d.linkTags.head? with
    | none => none
    | some lt =>
      if !(("http".toList).isPrefixOf lt.href) then none
      else
        some
          { title := if (pyStrip lt.text).isEmpty then "No title".toList else pyStrip lt.text
            link := lt.href
            description :=
              match d.descDivs.find? (fun dd => dd.classNames.any descClassPred) with
              | none => []
              | some dd => pyStrip dd.text
            favicon_path := "https://www.google.com/s2/favicons?domain=".toList ++ netloc lt.href
            keyword := keyword }

/-- `parse_page` (src/main.py lines 58-102): absent HTML yields
`{"page": page, "results": []}`; otherwise the selected containers are
processed in order and the surviving records collected.  `soupOf` is the
external BeautifulSoup step turning raw HTML into the container list. -/
def parse_page (soupOf : List Char → List DomDiv) (netloc : List Char → List Char)
    (html : Option (List Char)) (keyword : List Char) (page : Nat) : PageResult :=
  match html with
  | none => ⟨page, []⟩
  | some h => ⟨page, ((soupOf h).filter selectPred).filterMap (parseDiv netloc keyword)⟩

/-- Python `enumerate(xs, start=n)`. -/
def pyEnumerate (n : Nat) : List α → List (Nat × α)
  | [] => []
  | a :: l => (n, a) :: pyEnumerate (n + 1) l

/-- The result of awaiting one page task under
`asyncio.gather(..., return_exceptions=True)`: either the exception the
task raised, or the `Option` value `fetch_page` returned. -/
abbrev PageTaskResult := Except (List Char) (Option (List Char))

/-- The `isinstance(html, Exception)` normalization of src/main.py
lines 116-118: a captured exception is replaced by `None`. -/
def exnToNone : PageTaskResult → Option (List Char)
  | .error _ => none
  | .ok h => h

/-- The URL built for one page of a query (src/main.py lines 108-110):
page 1 uses the plain search URL, page `p ≥ 2` appends `&p={p-1}`.
`quote` is urllib's escaping, an external collaborator. -/
def pageUrl (quote : List Char → List Char) (query : List Char) (page : Nat) : List Char :=
  if page = 1 then "https://www.ecosia.org/search?q=".toList ++ quote query
  else
    "https://www.ecosia.org/search?q=".toList ++ quote query ++
      "&p=".toList ++ (Nat.repr (page - 1)).toList

/-- `scrape_query` (src/main.py lines 104-122): one fetch task per page
index `1..PAGES`; `asyncio.gather` hands their results back in task
order; captured exceptions become `None`; each page is parsed with its
1-based page number from `enumerate(html_pages, start=1)`.  The value is
the dict `{query: structured_data}`, modelled as a pair.  `taskResult`
gives, per page URL, what awaiting that page's `fetch_page` task yields. -/
def scrape_query (soupOf : List Char → List DomDiv) (netloc quote : List Char → List Char)
    (taskResult : List Char → PageTaskResult) (query : List Char) :
    List Char × List PageResult :=
  let html_pages := (List.range' 1 PAGES).map fun p => taskResult (pageUrl quote query p)
  (query,
    (pyEnumerate 1 html_pages).map fun pe =>
      parse_page soupOf netloc (exnToNone pe.2) query pe.1)

/-- Completion of gathered tasks in an arbitrary order: the scheduler
finishes task `i` (producing `task i`) following the order list.  This
models out-of-order completion of the concurrent page fetches. -/
def completeInOrder (order : List Nat) (task : Nat → α) : List (Nat × α) :=
  order.map fun i => (i, task i)

/-- `asyncio.gather`'s result slots: slot `i` of `n` holds the value the
task with index `i` produced, found among the completed tasks — gather
returns results positionally, not in completion order. -/
def gatherSlots (n : Nat) (completed : List (Nat × α)) : List (Option α) :=
  (List.range n).map fun i => (completed.find? fun p => p.1 == i).map Prod.snd

/-- The character filter of the sanitizer at src/main.py line 148:
`c.isalnum() or c in (' ', '_')` (ASCII model of `str.isalnum`). -/
def allowedChar (c : Char) : Bool := c.isAlphanum || c = ' ' || c = '_'

/-- `safe_query = ''.join(c for c in query if c.isalnum() or c in (' ', '_')).replace(' ', '_')`
(src/main.py line 148). -/
def safe_query (query : List Char) : List Char :=
  (query.filter allowedChar).map fun c => if c = ' ' then '_' else c

/-- `filename = f"{safe_query}.json"` (src/main.py line 149). -/
def queryFilename (query : List Char) : List Char :=
  safe_query query ++ ".json".toList

/-- `process_query` (src/main.py lines 143-150), observed through the
sink: scrape the query, derive the sanitized filename, and hand the
document to `save_to_json`, whose outcome (`ok` or a raised persistence
exception) is the outcome of the whole coroutine — there is no
`try`/`except` around the body. -/
def process_query (soupOf : List Char → List DomDiv) (netloc quote : List Char → List Char)
    (taskResult : List Char → PageTaskResult)
    (save : List Char × List PageResult → List Char → Except (List Char) Unit)
    (query : List Char) : Except (List Char) Unit :=
  save (scrape_query soupOf netloc quote taskResult query) (queryFilename query)

/-- The batch run `await asyncio.gather(*tasks)` (src/main.py line 154)
together with `asyncio.run` (line 157), under an explicit completion
order: query coroutines finish one by one in the given order; the first
one that raises makes `gather` re-raise, `main` propagate, and
`asyncio.run` cancel every task that has not finished yet.  Returns the
run's outcome and the list of queries whose documents were persisted
before the failure (all of them when nothing raised). -/
def runBatch (proc : List Char → Except (List Char) Unit) :
    List (List Char) → Except (List Char) Unit × List (List Char)
  | [] => (.ok (), [])
  | q :: rest =>
    match proc q with
    | .ok _ =>
      let r := runBatch proc rest
      (r.1, q :: r.2)
    | .error e => (.error e, [])

/-- Atomic concurrency-relevant actions of the coroutines in
src/main.py: entering/leaving `async with query_sem` (lines 145-150),
entering/leaving `async with sem` (lines 41-46), and spawning a child
coroutine (the tasks handed to `asyncio.gather`). -/
inductive SchedAction where
  | acqQuery
  | relQuery
  | acqPage
  | relPage
  | spawnTask (prog : List SchedAction)

/-- A scheduler state: the pending action list of every live task, the
number of current holders of `query_sem`, and of `sem`. -/
structure Sched where
  tasks : List (List SchedAction)
  queriesActive : Nat
  pagesActive : Nat

/-- One cooperative scheduling step.  `asyncio.Semaphore(k)` blocks an
acquirer while `k` tasks hold the semaphore, so an acquire step is only
enabled below the capacity; releases always proceed; `spawnTask` adds a
new task. -/
inductive SchedStep : Sched → Sched → Prop where
  | acqQuery (L R : List (List SchedAction)) (rest : List SchedAction) (q p : Nat) :
      q < QUERY_LIMIT →
      SchedStep ⟨L ++ (SchedAction.acqQuery :: rest) :: R, q, p⟩
        ⟨L ++ rest :: R, q + 1, p⟩
  | relQuery (L R : List (List SchedAction)) (rest : List SchedAction) (q p : Nat) :
      SchedStep ⟨L ++ (SchedAction.relQuery :: rest) :: R, q, p⟩
        ⟨L ++ rest :: R, q - 1, p⟩
  | acqPage (L R : List (List SchedAction)) (rest : List SchedAction) (q p : Nat) :
      p < PAGE_LIMIT →
      SchedStep ⟨L ++ (SchedAction.acqPage :: rest) :: R, q, p⟩
        ⟨L ++ rest :: R, q, p + 1⟩
  | relPage (L R : List (List SchedAction)) (rest : List SchedAction) (q p : Nat) :
      SchedStep ⟨L ++ (SchedAction.relPage :: rest) :: R, q, p⟩
        ⟨L ++ rest :: R, q, p - 1⟩
  | spawnTask (L R : List (List SchedAction)) (prog rest : List SchedAction) (q p : Nat) :
      SchedStep ⟨L ++ (SchedAction.spawnTask prog :: rest) :: R, q, p⟩
        ⟨L ++ rest :: (R ++ [prog]), q, p⟩

/-- States reachable by any interleaving. -/
def SchedReachable : Sched → Sched → Prop := Relation.ReflTransGen SchedStep

/-- One attempt of `fetch_page`'s retry loop: `async with sem:` around
the request (src/main.py lines 41-46). -/
def fetchAttemptProg : List SchedAction := [SchedAction.acqPage, SchedAction.relPage]

/-- A whole `fetch_page` coroutine: up to `RETRIES` attempts, each taking
and releasing `sem` (src/main.py lines 37-56). -/
def fetchProg : List SchedAction := (List.replicate RETRIES fetchAttemptProg).flatten

/-- A `process_query` coroutine (src/main.py lines 143-150): take
`query_sem`, spawn a `fetch_page` task per page index (the
`asyncio.gather` of `scrape_query`), and release `query_sem` at the end
of the `async with` block. -/
def processQueryProg : List SchedAction :=
  SchedAction.acqQuery ::
    (List.replicate PAGES (SchedAction.spawnTask fetchProg) ++ [SchedAction.relQuery])

/-- The initial scheduler state of a run over `n` queries (src/main.py
lines 152-154): one `process_query` task per query, no semaphore held. -/
def initialSched (n : Nat) : Sched :=
  ⟨List.replicate n processQueryProg, 0, 0⟩

theorem attemptValue_eq_some (a : AttemptOutcome) (b : List Char)
    (h : attemptValue a = some b) : a = .response 200 b := by
  cases a with
  | response status body =>
    simp only [attemptValue] at h
    split at h
    · cases h
      rename_i h200
      have hst : status = 200 := by simpa using h200
      rw [hst]
    · cases h
  | exn m => cases h

theorem fetchLoop_headersUsed (attempts : Nat → AttemptOutcome) (h : List Char) :
    ∀ fuel i : Nat,
      (fetchLoop attempts h i fuel).headersUsed =
        List.replicate (fetchLoop attempts h i fuel).attemptsUsed h := by
  intro fuel
  induction fuel with
  | zero => intro i; rfl
  | succ fuel ih =>
    intro i
    simp only [fetchLoop]
    cases hv : attemptValue (attempts i) with
    | some body => rfl
    | none =>
      show h :: (fetchLoop attempts h (i + 1) fuel).headersUsed = _
      rw [List.replicate_succ, ih (i + 1)]

theorem fetchLoop_isSome (attempts : Nat → AttemptOutcome) (h : List Char) :
    ∀ fuel i : Nat,
      ((fetchLoop attempts h i fuel).result.isSome = true ↔
        ∃ j, j < fuel ∧ isSuccess (attempts (i + j)) = true) := by
  intro fuel
  induction fuel with
  | zero =>
    intro i
    simp [fetchLoop]
  | succ fuel ih =>
    intro i
    simp only [fetchLoop]
    cases hv : attemptValue (attempts i) with
    | some body =>
      simp only [Option.isSome_some, true_iff]
      exact ⟨0, Nat.succ_pos fuel, by simp [isSuccess, hv]⟩
    | none =>
      show ((fetchLoop attempts h (i + 1) fuel).result.isSome = true ↔ _)
      rw [ih (i + 1)]
      constructor
      · rintro ⟨j, hj, hs⟩
        refine ⟨j + 1, Nat.succ_lt_succ hj, ?_⟩
        have e : i + (j + 1) = i + 1 + j := by omega
        rwa [e]
      · rintro ⟨j, hj, hs⟩
        cases j with
        | zero =>
          rw [Nat.add_zero] at hs
          rw [isSuccess, hv] at hs
          cases hs
        | succ j =>
          refine ⟨j, Nat.lt_of_succ_lt_succ hj, ?_⟩
          have e : i + 1 + j = i + (j + 1) := by omega
          rwa [e]

theorem fetchLoop_result_some (attempts : Nat → AttemptOutcome) (h : List Char) :
    ∀ fuel i b, (fetchLoop attempts h i fuel).result = some b →
      ∃ j, j < fuel ∧ attempts (i + j) = .response 200 b := by
  intro fuel
  induction fuel with
  | zero => intro i b hr; cases hr
  | succ fuel ih =>
    intro i b
    simp only [fetchLoop]
    cases hv : attemptValue (attempts i) with
    | some body =>
      intro hr
      cases hr
      exact ⟨0, Nat.succ_pos fuel, by rw [Nat.add_zero]; exact attemptValue_eq_some _ _ hv⟩
    | none =>
      intro hr
      obtain ⟨j, hj, hs⟩ := ih (i + 1) b hr
      refine ⟨j + 1, Nat.succ_lt_succ hj, ?_⟩
      have e : i + (j + 1) = i + 1 + j := by omega
      rwa [e]

theorem fetchLoop_allFail (attempts : Nat → AttemptOutcome) (h : List Char) :
    ∀ fuel i, (∀ j, j < fuel → isSuccess (attempts (i + j)) = false) →
      fetchLoop attempts h i fuel = ⟨none, fuel, List.replicate fuel h⟩ := by
  intro fuel
  induction fuel with
  | zero => intro i _; rfl
  | succ fuel ih =>
    intro i hall
    simp only [fetchLoop]
    cases hv : attemptValue (attempts i) with
    | some body =>
      have h0 := hall 0 (Nat.succ_pos fuel)
      rw [Nat.add_zero, isSuccess, hv] at h0
      cases h0
    | none =>
      have hrec : fetchLoop attempts h (i + 1) fuel = ⟨none, fuel, List.replicate fuel h⟩ := by
        apply ih
        intro j hj
        have hh := hall (j + 1) (Nat.succ_lt_succ hj)
        have e : i + (j + 1) = i + 1 + j := by omega
        rwa [e] at hh
      simp [hrec, List.replicate_succ]

/-- C3: `fetch_page` returns page content exactly when one of its up to
`RETRIES` attempts receives a response with status exactly 200 (a success
on the final allowed attempt included), and any returned body is the body
of such a 200 response; in every other case the modelled return value is
`none` — the total, `Option`-valued embedding reflects that non-200
statuses, transport errors and timeouts are caught inside the loop and
never propagated. -/
theorem fetch_page_success_iff_200 (ua : Nat → List Char) (attempts : Nat → AttemptOutcome) :
    ((fetch_page ua attempts).result.isSome = true ↔
      ∃ i, i < RETRIES ∧ isSuccess (attempts i) = true) ∧
    (∀ b, (fetch_page ua attempts).result = some b →
      ∃ i, i < RETRIES ∧ attempts i = .response 200 b) := by
  constructor
  · have h := fetchLoop_isSome attempts (ua 0) RETRIES 0
    simpa [fetch_page] using h
  · intro b hb
    have h := fetchLoop_result_some attempts (ua 0) RETRIES 0 b hb
    simpa using h

/-- Transport that fails twice (status 503, then a timeout exception) and
succeeds with status 200 only on the third and final attempt. -/
def lateSuccessAttempts : Nat → AttemptOutcome := fun i =>
  if i = 2 then .response 200 "body".toList
  else if i = 0 then .response 503 [] else .exn "timeout".toList

/-- Witness for C3 at a concrete transport: the success on the final
allowed attempt is still used, and the returned body comes from the 200
response. -/
theorem fetch_page_success_iff_200_witness :
    ((fetch_page (fun _ => "ua".toList) lateSuccessAttempts).result.isSome = true) ∧
    ∃ i, i < RETRIES ∧ lateSuccessAttempts i = .response 200 "body".toList :=
  ⟨(fetch_page_success_iff_200 (fun _ => "ua".toList) lateSuccessAttempts).1.mpr
      ⟨2, by decide, by decide⟩,
    (fetch_page_success_iff_200 (fun _ => "ua".toList) lateSuccessAttempts).2
      "body".toList (by decide)⟩

/-- C4: on a URL where every attempt fails (non-200 status or transport
exception), `fetch_page` issues exactly `RETRIES` attempts — no premature
abort, no extra attempt — and `RETRIES` defaults to 3; it then returns
`None`. -/
theorem fetch_page_allFail_attempts (ua : Nat → List Char) (attempts : Nat → AttemptOutcome)
    (hall : ∀ i, i < RETRIES → isSuccess (attempts i) = false) :
    (fetch_page ua attempts).attemptsUsed = RETRIES ∧ RETRIES = 3 ∧
      (fetch_page ua attempts).result = none := by
  have h := fetchLoop_allFail attempts (ua 0) RETRIES 0 (by simpa using hall)
  rw [fetch_page, h]
  exact ⟨rfl, rfl, rfl⟩

/-- Witness for C4: a transport answering 503 on every attempt is
consulted exactly 3 times. -/
theorem fetch_page_allFail_attempts_witness :
    (fetch_page (fun _ => "ua".toList) (fun _ => .response 503 [])).attemptsUsed = RETRIES ∧
      RETRIES = 3 ∧
      (fetch_page (fun _ => "ua".toList) (fun _ => .response 503 [])).result = none :=
  fetch_page_allFail_attempts (fun _ => "ua".toList) (fun _ => .response 503 [])
    (fun _ _ => rfl)

/-- A User-Agent randomizer stream whose successive samples are pairwise
distinct (sample `n` is the decimal spelling of `n`). -/
def distinctUA : Nat → List Char := fun n => (Nat.repr n).toList

/-- Counterexample to C6 as stated: with a randomizer producing distinct
samples and a transport failing every attempt, all three issued requests
carry the first sample — the header list is not the list of three fresh
samples the per-attempt re-randomization described by the claim would
produce. -/
theorem fetch_page_header_not_per_attempt :
    (fetch_page distinctUA (fun _ => .response 503 [])).headersUsed =
        [['0'], ['0'], ['0']] ∧
      (List.range RETRIES).map distinctUA = [['0'], ['1'], ['2']] ∧
      (fetch_page distinctUA (fun _ => .response 503 [])).headersUsed ≠
        (List.range RETRIES).map distinctUA := by
  refine ⟨by decide, by decide, by decide⟩

/-- C6 amended: the client identity header is randomized once per
`fetch_page` call, before the retry loop, and every attempt on that URL
reuses that single sample: the issued headers are `attemptsUsed` copies
of the first randomizer sample. -/
theorem fetch_page_header_fixed_per_call (ua : Nat → List Char)
    (attempts : Nat → AttemptOutcome) :
    (fetch_page ua attempts).headersUsed =
      List.replicate (fetch_page ua attempts).attemptsUsed (ua 0) :=
  fetchLoop_headersUsed attempts (ua 0) RETRIES 0

theorem pyToLower_ne_G (c : Char) : pyToLower c ≠ 'G' := by
  unfold pyToLower
  split
  · rename_i hrange
    obtain ⟨hlo, hhi⟩ := hrange
    have hgen : ∀ n : Nat, 65 ≤ n → n ≤ 90 → Char.ofNat (n + 32) ≠ 'G' := by
      intro n h1 h2
      interval_cases n <;> decide
    exact hgen c.toNat hlo hhi
  · rename_i hrange
    intro heq
    apply hrange
    rw [heq]
    exact ⟨by decide, by decide⟩

/-- The sponsored-result test of src/main.py line 73 can never fire: the
needle `'provided by Google'` contains the uppercase `'G'`, while
`t.lower()` contains no uppercase letters, so the membership test is
false for every text node. -/
theorem isSponsoredText_eq_false (t : List Char) : isSponsoredText t = false := by
  unfold isSponsoredText
  have hsub : containsSub sponsoredMarker (pyLower t) = false := by
    unfold containsSub
    rw [decide_eq_false_iff_not]
    intro hinf
    have hmem : 'G' ∈ pyLower t := hinf.subset (by decide)
    rw [pyLower, List.mem_map] at hmem
    obtain ⟨c, _, hc⟩ := hmem
    exact pyToLower_ne_G c hc
  rw [hsub, Bool.and_false]

/-- A result container whose text carries the sponsorship disclosure
marker, with a valid absolute hyperlink, and a class that the selector of
line 71 keeps. -/
def sponsoredDiv : DomDiv :=
  { className := "mainline".toList
    texts := ["Ads provided by Google".toList]
    linkTags := [⟨"https://sponsored.example/x".toList, "Sponsored hit".toList⟩]
    descDivs := [] }

/-- C5 (code bug): the container text contains the marker
`'provided by Google'`, yet `parse_page` emits the record extracted from
it.  Line 73 tests `'provided by Google' in t.lower()`: the lowercased
text can never contain the needle's uppercase `'G'`, so the
skip-sponsored branch is dead code and the record goes through, against
the claim, the spec, and the code's own `# Skip sponsored results`
comment. -/
theorem parse_page_emits_sponsored :
    containsSub sponsoredMarker ("Ads provided by Google".toList) = true ∧
      (parse_page (fun _ => [sponsoredDiv]) (fun _ => "sponsored.example".toList)
            (some "html".toList) "q".toList 1).results.map ResultRecord.link =
        ["https://sponsored.example/x".toList] := by
  refine ⟨by decide, by decide⟩

/-- The character content the spec says the identifier keeps apart from
underscores: alphanumerics and spaces ("alphanumeric+space content"). -/
def specAlnumSpace (q : List Char) : List Char :=
  q.filter fun c => c.isAlphanum || c = ' '

/-- Counterexample to C8 as stated: `"a b"` and `"a_b"` have different
alphanumeric+space content (one has a space where the other has an
underscore, which is not punctuation that sanitizing drops), yet
`.replace(' ', '_')` makes both identifiers `"a_b"` — they collide. -/
theorem safe_query_space_underscore_collision :
    specAlnumSpace "a b".toList ≠ specAlnumSpace "a_b".toList ∧
      safe_query "a b".toList = safe_query "a_b".toList := by
  refine ⟨by decide, by decide⟩

theorem replaceSpace_inj :
    ∀ l1 l2 : List Char, '_' ∉ l1 → '_' ∉ l2 →
      (l1.map fun c => if c = ' ' then '_' else c) =
        (l2.map fun c => if c = ' ' then '_' else c) →
      l1 = l2
  | [], [], _, _, _ => rfl
  | [], _ :: _, _, _, h => by cases h
  | _ :: _, [], _, _, h => by cases h
  | a :: t1, b :: t2, h1, h2, h => by
    simp only [List.map_cons, List.cons.injEq] at h
    obtain ⟨hab, ht⟩ := h
    have ha : a ≠ '_' := fun hx => h1 (by rw [← hx]; exact List.mem_cons_self a t1)
    have hb : b ≠ '_' := fun hx => h2 (by rw [← hx]; exact List.mem_cons_self b t2)
    have ht1 : '_' ∉ t1 := fun hx => h1 (List.mem_cons_of_mem a hx)
    have ht2 : '_' ∉ t2 := fun hx => h2 (List.mem_cons_of_mem b hx)
    have hab2 : a = b := by
      by_cases hsa : a = ' ' <;> by_cases hsb : b = ' '
      · rw [hsa, hsb]
      · rw [if_pos hsa, if_neg hsb] at hab
        exact absurd hab.symm hb
      · rw [if_neg hsa, if_pos hsb] at hab
        exact absurd hab ha
      · rw [if_neg hsa, if_neg hsb] at hab
        exact hab
    rw [hab2, replaceSpace_inj t1 t2 ht1 ht2 ht]

theorem filter_allowed_of_no_underscore (q : List Char) (h : '_' ∉ q) :
    q.filter allowedChar = specAlnumSpace q := by
  unfold specAlnumSpace
  apply List.filter_congr
  intro c hc
  have hcne : ¬(c = '_') := fun hx => h (hx ▸ hc)
  simp [allowedChar, hcne]

/-- C8 amended: the identifier is a deterministic pure function of the
query text, and for queries containing no underscore, different
alphanumeric+space content guarantees different identifiers.  (The
unrestricted claim fails because `.replace(' ', '_')` conflates a space
with a literal underscore: see the counterexample `"a b"` / `"a_b"`.) -/
theorem safe_query_no_underscore_inj (q1 q2 : List Char)
    (h1 : '_' ∉ q1) (h2 : '_' ∉ q2)
    (hne : specAlnumSpace q1 ≠ specAlnumSpace q2) :
    safe_query q1 ≠ safe_query q2 := by
  intro heq
  apply hne
  unfold safe_query at heq
  have hf1 : '_' ∉ q1.filter allowedChar := fun hm => h1 (List.mem_of_mem_filter hm)
  have hf2 : '_' ∉ q2.filter allowedChar := fun hm => h2 (List.mem_of_mem_filter hm)
  have hfe := replaceSpace_inj _ _ hf1 hf2 heq
  rw [← filter_allowed_of_no_underscore q1 h1, ← filter_allowed_of_no_underscore q2 h2]
  exact hfe

/-- Witness for the amended C8: `"a b!"` and `"ab"` contain no
underscore and have different alphanumeric+space content, and indeed get
different identifiers. -/
theorem safe_query_no_underscore_inj_witness :
    safe_query "a b!".toList ≠ safe_query "ab".toList :=
  safe_query_no_underscore_inj "a b!".toList "ab".toList
    (by decide) (by decide) (by decide)

/-- C10: a query none of whose characters is retained (no alphanumerics,
spaces or underscores) sanitizes to the empty identifier, so its document
is written to the file `".json"` — and therefore all such queries map to
that same destination. -/
theorem safe_query_all_disallowed (q : List Char)
    (h : ∀ c ∈ q, allowedChar c = false) :
    safe_query q = [] ∧ queryFilename q = ".json".toList := by
  have hf : q.filter allowedChar = [] := by
    apply List.filter_eq_nil_iff.mpr
    intro a ha
    simp [h a ha]
  refine ⟨?_, ?_⟩
  · rw [safe_query, hf]
    rfl
  · rw [queryFilename, safe_query, hf]
    rfl

/-- Witness for C10 at `"???"` (and the collision with `"!!!"`). -/
theorem safe_query_all_disallowed_witness :
    (safe_query "???".toList = [] ∧ queryFilename "???".toList = ".json".toList) ∧
      queryFilename "???".toList = queryFilename "!!!".toList :=
  ⟨safe_query_all_disallowed "???".toList (by decide), by decide⟩

theorem parse_page_page_eq (soupOf : List Char → List DomDiv)
    (netloc : List Char → List Char) (html : Option (List Char))
    (keyword : List Char) (page : Nat) :
    (parse_page soupOf netloc html keyword page).page = page := by
  cases html <;> rfl

theorem pyEnumerate_range'_map {α β : Type} (task : Nat → α) (g : Nat → α → β) :
    ∀ n s : Nat,
      ((pyEnumerate s ((List.range' s n).map task)).map fun pe => g pe.1 pe.2) =
        (List.range' s n).map fun p => g p (task p) := by
  intro n
  induction n with
  | zero => intro s; rfl
  | succ n ih =>
    intro s
    rw [List.range'_succ]
    simp only [List.map_cons, pyEnumerate]
    rw [ih (s + 1)]

/-- The structured data assembled by `scrape_query` is exactly one
`parse_page` value per page index `1..PAGES`, in that order. -/
theorem scrape_query_snd_eq (soupOf : List Char → List DomDiv)
    (netloc quote : List Char → List Char)
    (taskResult : List Char → PageTaskResult) (query : List Char) :
    (scrape_query soupOf netloc quote taskResult query).2 =
      (List.range' 1 PAGES).map fun p =>
        parse_page soupOf netloc (exnToNone (taskResult (pageUrl quote query p))) query p := by
  show (pyEnumerate 1 ((List.range' 1 PAGES).map fun p =>
        taskResult (pageUrl quote query p))).map
      (fun pe => parse_page soupOf netloc (exnToNone pe.2) query pe.1) = _
  exact pyEnumerate_range'_map (fun p => taskResult (pageUrl quote query p))
    (fun p h => parse_page soupOf netloc (exnToNone h) query p) PAGES 1

theorem find?_completeInOrder {α : Type} (task : Nat → α) (i : Nat) :
    ∀ order : List Nat, i ∈ order →
      (completeInOrder order task).find? (fun p => p.1 == i) = some (i, task i) := by
  intro order
  induction order with
  | nil => intro h; cases h
  | cons j rest ih =>
    intro hmem
    by_cases hji : j = i
    · subst hji
      apply List.find?_cons_of_pos
      simp
    · rw [completeInOrder, List.map_cons]
      rw [List.find?_cons_of_neg]
      · exact ih ((List.mem_cons.mp hmem).resolve_left fun hx => hji hx.symm)
      · simp [hji]

/-- Order-independence of `asyncio.gather`: whatever order the page tasks
complete in (any permutation of the task indices), slot `i` of the
gathered result holds task `i`'s value. -/
theorem gatherSlots_perm {α : Type} (n : Nat) (order : List Nat) (task : Nat → α)
    (hperm : order.Perm (List.range n)) :
    gatherSlots n (completeInOrder order task) =
      (List.range n).map fun i => some (task i) := by
  unfold gatherSlots
  apply List.map_congr_left
  intro i hi
  rw [find?_completeInOrder task i order (hperm.mem_iff.mpr hi)]
  rfl

/-- C1: for every query and every completion order of the concurrent page
fetches, the gathered results sit in task order (page order), and the
document `scrape_query` returns maps that single query to exactly `PAGES`
page results whose indices are `1..PAGES` in ascending order with no
gaps. -/
theorem scrape_query_pages_ordered (soupOf : List Char → List DomDiv)
    (netloc quote : List Char → List Char) (taskResult : List Char → PageTaskResult)
    (query : List Char) (order : List Nat)
    (hperm : order.Perm (List.range PAGES)) :
    ((gatherSlots PAGES (completeInOrder order
          (fun i => taskResult (pageUrl quote query (1 + i))))).filterMap id =
        (List.range' 1 PAGES).map fun p => taskResult (pageUrl quote query p)) ∧
      (scrape_query soupOf netloc quote taskResult query).1 = query ∧
      ((scrape_query soupOf netloc quote taskResult query).2.map PageResult.page =
        List.range' 1 PAGES) ∧
      (scrape_query soupOf netloc quote taskResult query).2.length = PAGES := by
  refine ⟨?_, rfl, ?_, ?_⟩
  · rw [gatherSlots_perm PAGES order (fun i => taskResult (pageUrl quote query (1 + i))) hperm,
      List.filterMap_map]
    show List.filterMap (some ∘ fun i => taskResult (pageUrl quote query (1 + i)))
        (List.range PAGES) = _
    rw [List.filterMap_eq_map, List.range'_eq_map_range, List.map_map]
    rfl
  · rw [scrape_query_snd_eq, List.map_map]
    trans (List.range' 1 PAGES).map fun p => p
    · apply List.map_congr_left
      intro p _
      exact parse_page_page_eq soupOf netloc _ query p
    · exact List.map_id' _
  · rw [scrape_query_snd_eq, List.length_map]
    simp

def wSoup : List Char → List DomDiv := fun _ => []

def wNetloc : List Char → List Char := fun _ => []

def wQuote : List Char → List Char := fun s => s

def wTask : List Char → PageTaskResult := fun _ => .ok none

/-- Witness for C1 at a concrete out-of-order completion schedule. -/
theorem scrape_query_pages_ordered_witness :
    (scrape_query wSoup wNetloc wQuote wTask "cats".toList).2.map PageResult.page =
      List.range' 1 PAGES :=
  (scrape_query_pages_ordered wSoup wNetloc wQuote wTask "cats".toList
      [2, 0, 4, 1, 3] (by decide)).2.2.1

/-- C2: a page whose fetch fails — exhausted retries yielding `None`, or
an exception captured by `gather` and converted to `None` — still
contributes a `PageResult` with the correct 1-based page index and an
empty record sequence; and when every page fails, the document is the
complete sequence of `PAGES` empty page results, not a missing or
truncated output. -/
theorem scrape_query_failed_page_empty (soupOf : List Char → List DomDiv)
    (netloc quote : List Char → List Char) (taskResult : List Char → PageTaskResult)
    (query : List Char) :
    (∀ i : Nat, i < PAGES →
        exnToNone (taskResult (pageUrl quote query (1 + i))) = none →
        (scrape_query soupOf netloc quote taskResult query).2.get? i =
          some ⟨1 + i, []⟩) ∧
      ((∀ p ∈ List.range' 1 PAGES,
          exnToNone (taskResult (pageUrl quote query p)) = none) →
        (scrape_query soupOf netloc quote taskResult query).2 =
          (List.range' 1 PAGES).map fun p => ⟨p, []⟩) := by
  constructor
  · intro i hi hfail
    rw [scrape_query_snd_eq, List.get?_map]
    have hr : (List.range' 1 PAGES).get? i = some (1 + i) := by
      simp [List.getElem?_range' 1, hi]
    rw [hr, Option.map_some', hfail]
    rfl
  · intro hall
    rw [scrape_query_snd_eq]
    apply List.map_congr_left
    intro p hp
    rw [hall p hp]
    rfl

def wFailTask : List Char → PageTaskResult := fun _ => .error "connection reset".toList

/-- Witness for C2: with every page task raising an exception, page 3 (and
every other page) is an empty `PageResult`, and the whole document is the
five empty pages. -/
theorem scrape_query_failed_page_empty_witness :
    (scrape_query wSoup wNetloc wQuote wFailTask "dogs".toList).2.get? 2 =
        some ⟨3, []⟩ ∧
      (scrape_query wSoup wNetloc wQuote wFailTask "dogs".toList).2 =
        (List.range' 1 PAGES).map fun p => ⟨p, []⟩ :=
  ⟨(scrape_query_failed_page_empty wSoup wNetloc wQuote wFailTask "dogs".toList).1 2
      (by decide) rfl,
    (scrape_query_failed_page_empty wSoup wNetloc wQuote wFailTask "dogs".toList).2
      (fun _ _ => rfl)⟩

def wFailingSave : List Char × List PageResult → List Char → Except (List Char) Unit :=
  fun _ fn => if fn = "a.json".toList then .error "disk full".toList else .ok ()

def wProc : List Char → Except (List Char) Unit :=
  process_query wSoup wNetloc wQuote wTask wFailingSave

/-- Counterexample to C7 as stated: `process_query` has no `try`/`except`
and the batch `gather` has no `return_exceptions`, so when the sink fails
while persisting query `"a"`, the run terminates with that exception and
the sibling query `"b"` — which on its own would have persisted fine — is
not processed: nothing is logged-and-continued. -/
theorem runBatch_sink_failure_halts :
    runBatch wProc ["a".toList, "b".toList] = (.error "disk full".toList, []) ∧
      wProc "b".toList = .ok () := by
  refine ⟨rfl, rfl⟩

/-- C7 amended: an exception escaping one query's pipeline (for example a
sink failure) propagates out of `asyncio.gather` and `asyncio.run` and
halts the batch: exactly the sibling queries that completed before the
failing one are persisted, and the queries scheduled after it are
cancelled, not processed. -/
theorem runBatch_halts_at_error (proc : List Char → Except (List Char) Unit)
    (pre : List (List Char)) (q : List Char) (post : List (List Char)) (e : List Char)
    (hpre : ∀ x ∈ pre, proc x = .ok ()) (hq : proc q = .error e) :
    runBatch proc (pre ++ q :: post) = (.error e, pre) := by
  induction pre with
  | nil =>
    rw [List.nil_append]
    simp only [runBatch]
    rw [hq]
  | cons a t ih =>
    have ha : proc a = .ok () := hpre a (List.mem_cons_self a t)
    rw [List.cons_append]
    simp only [runBatch]
    rw [ha]
    simp only []
    rw [ih (fun x hx => hpre x (List.mem_cons_of_mem a hx))]

/-- Witness for the amended C7: sibling `"b"` completes before the
failing `"a"`, sibling `"c"` after it; only `"b"` is persisted and the
run ends with the sink's error. -/
theorem runBatch_halts_at_error_witness :
    runBatch wProc (["b".toList] ++ "a".toList :: ["c".toList]) =
      (.error "disk full".toList, ["b".toList]) :=
  runBatch_halts_at_error wProc ["b".toList] "a".toList ["c".toList] "disk full".toList
    (by
      intro x hx
      rw [List.mem_singleton] at hx
      subst hx
      rfl)
    rfl

/-- C9: every interleaving of a batch run keeps the holders of
`query_sem` at or below `QUERY_LIMIT` = 3 and the holders of `sem` (the
in-flight page fetches) at or below `PAGE_LIMIT` = 10: the two global
counting limiters compose and are never exceeded. -/
theorem sched_limits_invariant (n : Nat) (s : Sched)
    (h : SchedReachable (initialSched n) s) :
    s.queriesActive ≤ QUERY_LIMIT ∧ s.pagesActive ≤ PAGE_LIMIT := by
  have general : ∀ s1 : Sched, Relation.ReflTransGen SchedStep (initialSched n) s1 →
      s1.queriesActive ≤ QUERY_LIMIT ∧ s1.pagesActive ≤ PAGE_LIMIT := by
    intro s1 hr
    induction hr with
    | refl => exact ⟨Nat.zero_le _, Nat.zero_le _⟩
    | tail hsteps hstep ih =>
      obtain ⟨hq, hp⟩ := ih
      cases hstep <;>
        simp only [Sched.queriesActive, Sched.pagesActive] at hq hp ⊢ <;>
        unfold QUERY_LIMIT PAGE_LIMIT at * <;>
        constructor <;> omega
  exact general s h

/-- Witness for C9: the initial state of a two-query run is reachable and
within both limits. -/
theorem sched_limits_invariant_witness :
    (initialSched 2).queriesActive ≤ QUERY_LIMIT ∧
      (initialSched 2).pagesActive ≤ PAGE_LIMIT :=
  sched_limits_invariant 2 (initialSched 2) Relation.ReflTransGen.refl
